import Mathlib

/-!
Verification of the fastjs request core (`packages/core/src/request/core.ts`
and `packages/core/src/request/lib.ts`) against its natural-language
specification.  The TypeScript functions are shallowly embedded as Lean
functions; in-place mutation of JavaScript objects is made explicit by
returning the updated map, and the asynchronous `fetch` is modelled by an
oracle describing the transport outcome.
-/

namespace Fastjs

/-! ## JavaScript value model

`RequestData` maps hold arbitrary JavaScript values; for this core only
strings, numbers, booleans and `null` occur as payload values.  `truthy`
is JavaScript truthiness, `toStr` is JavaScript string coercion. -/

inductive JVal where
  | jstr (s : String)
  | jnum (n : Int)
  | jbool (b : Bool)
  | jnull
  deriving DecidableEq, Repr

def JVal.truthy : JVal → Bool
  | .jstr s => s ≠ ""
  | .jnum n => n ≠ 0
  | .jbool b => b
  | .jnull => false

def JVal.toStr : JVal → String
  | .jstr s => s
  | .jnum n => toString n
  | .jbool b => if b then "true" else "false"
  | .jnull => "null"

def truthyOpt : Option JVal → Bool
  | none => false
  | some v => v.truthy

/-- A JavaScript object used as a `RequestData` map: an association list
with pairwise-distinct keys (JS object keys are unique). -/
abbrev JMap := List (String × JVal)

/-- `query[key]` — property lookup (first matching key). -/
def jget (m : JMap) (k : String) : Option JVal :=
  (m.find? (fun p => p.1 = k)).map (fun p => p.2)

/-- `delete query[key]` — property removal, made explicit. -/
def jdel (m : JMap) (k : String) : JMap :=
  m.filter (fun p => p.1 ≠ k)

/-- Property assignment `target[k] = v`: overwrites in place (keeping the
original insertion position, as JS objects do) or appends. -/
def jset (m : JMap) (k : String) (v : JVal) : JMap :=
  if (m.find? (fun p => p.1 = k)).isSome then
    m.map (fun p => if p.1 = k then (k, v) else p)
  else m ++ [(k, v)]

/-- `Object.assign(target, source)` for two maps. -/
def jmerge (target source : JMap) : JMap :=
  source.foldl (fun acc p => jset acc p.1 p.2) target

/-- Delete each key of `ks` in turn. -/
def jdelAll (m : JMap) (ks : List String) : JMap :=
  ks.foldl jdel m

/-! ## String primitives

`String.split`, `startsWith`, `contains` and UTF-8 encoding are
re-implemented on the character list so that every definition reduces
inside the kernel; for the single-character separators this core uses
they agree with the JavaScript string methods. -/

/-- `s.split(sep)` for a one-character separator: `"a//b" → ["a","","b"]`,
`"" → [""]`. -/
def splitOnCharAux (sep : Char) : List Char → List Char → List String
  | [], acc => [⟨acc.reverse⟩]
  | c :: cs, acc =>
    if c = sep then ⟨acc.reverse⟩ :: splitOnCharAux sep cs []
    else splitOnCharAux sep cs (c :: acc)

def splitOnChar (sep : Char) (s : String) : List String :=
  splitOnCharAux sep s.data []

/-- Does the string begin with the given character?  (`/^:/.test(s)`,
`query[0] === "?"`.) -/
def firstCharIs (c : Char) (s : String) : Bool :=
  match s.data with
  | x :: _ => x = c
  | [] => false

/-- `url.includes(c)` for a single character. -/
def strContainsChar (c : Char) (s : String) : Bool :=
  s.data.any (fun x => x = c)

/-- UTF-8 bytes of one character (as `Nat`s). -/
def utf8Bytes (c : Char) : List Nat :=
  let n := c.toNat
  if n < 128 then [n]
  else if n < 2048 then [192 + n / 64, 128 + n % 64]
  else if n < 65536 then
    [224 + n / 4096, 128 + (n / 64) % 64, 128 + n % 64]
  else
    [240 + n / 262144, 128 + (n / 4096) % 64, 128 + (n / 64) % 64,
      128 + n % 64]

/-! ## `lib.ts`: `transformPathParams` -/

/-- `component.replace(":", "")` — removes the first `:` of the string
(and only the first), wherever it occurs. -/
def removeFirstColonAux : List Char → List Char
  | [] => []
  | c :: cs => if c = ':' then cs else c :: removeFirstColonAux cs

def replaceFirstColon (s : String) : String :=
  ⟨removeFirstColonAux s.data⟩

/-- The body of `transformPathParams`' `urlComponents.map(...)` callback,
iterated over the segment list.  The callback mutates `query` (deleting a
consumed key) and pushes onto `matchs`; the recursion threads the map and
returns `(mapped segments, matchs, final map)`.  A segment is substituted
when it begins with `:` (`pathReg.test`) and `query[key]` is truthy
(`&& query[key]`). -/
def tppGo : List String → JMap → List String × List String × JMap
  | [], q => ([], [], q)
  | c :: cs, q =>
    let key := replaceFirstColon c
    match jget q key with
    | some v =>
      if firstCharIs ':' c && v.truthy then
        let r := tppGo cs (jdel q key)
        (v.toStr :: r.1, key :: r.2.1, r.2.2)
      else
        let r := tppGo cs q
        (c :: r.1, r.2.1, r.2.2)
    | none =>
      let r := tppGo cs q
      (c :: r.1, r.2.1, r.2.2)

/-- `transformPathParams(url, query)`: splits on `/`, substitutes truthy
path params, joins with `/`.  The source returns `[url, matchs]` and
mutates `query`; the mutated map is returned as the third component. -/
def transformPathParams (url : String) (query : JMap) :
    String × List String × JMap :=
  let r := tppGo (splitOnChar '/' url) query
  (String.intercalate "/" r.1, r.2.1, r.2.2)

/-! Specification-level description of `transformPathParams`, written from
the spec's words ("for each segment matching pattern `:name`, if `data`
contains key `name` [with a truthy value], substitutes the segment with the
string value of `data[name]` ..."), each segment judged against the
*original* map.  Used to state the refinement theorem. -/

def specSubst (q : JMap) (c : String) : Bool :=
  firstCharIs ':' c && truthyOpt (jget q (replaceFirstColon c))

def specSeg (q : JMap) (c : String) : String :=
  match jget q (replaceFirstColon c) with
  | some v => if firstCharIs ':' c && v.truthy then v.toStr else c
  | none => c

def specConsumed (q : JMap) (segs : List String) : List String :=
  (segs.filter (specSubst q)).map replaceFirstColon

/-- The keys named by the `:`-segments of a segment list. -/
def colonKeys (segs : List String) : List String :=
  (segs.filter (fun s => firstCharIs ':' s)).map replaceFirstColon

/-! ## `lib.ts`: `queryToUrlParams` and `addQuery` -/

/-- The `query` argument: `string | RequestData`. -/
inductive QueryArg where
  | str (s : String)
  | map (m : JMap)
  deriving DecidableEq, Repr

/-- `URLSearchParams.set(k, v)`: replaces the value of the first entry
with key `k` (removing any further entries with that key), or appends. -/
def uspSet : List (String × String) → String → String → List (String × String)
  | [], k, v => [(k, v)]
  | p :: ps, k, v =>
    if p.1 = k then (k, v) :: ps.filter (fun x => x.1 ≠ k)
    else p :: uspSet ps k v

/-- `new URLSearchParams(query)` for an object argument: entries in key
order with values string-coerced. -/
def uspOfMap (m : JMap) : List (String × String) :=
  m.map (fun p => (p.1, p.2.toStr))

/-- `queryToUrlParams(query)`: an object becomes its entries; a string is
stripped of a leading `?`, split on `&`, and each `k=v` pair is `set`
(a pair without `=` gets the value `"undefined"`, as `String(undefined)`). -/
def queryToUrlParams : QueryArg → List (String × String)
  | .map m => uspOfMap m
  | .str s =>
    let s := if firstCharIs '?' s then s.drop 1 else s
    (splitOnChar '&' s).foldl
      (fun acc pair =>
        let parts := splitOnChar '=' pair
        uspSet acc (parts.headD "") ((parts.drop 1).headD "undefined"))
      []

/-- `application/x-www-form-urlencoded` byte encoding used by
`URLSearchParams.toString`: unreserved bytes stay, space becomes `+`,
everything else is percent-encoded. -/
def hexDigitChar (n : Nat) : Char :=
  if n < 10 then Char.ofNat (48 + n) else Char.ofNat (55 + n)

def formUnreserved (b : Nat) : Bool :=
  (48 ≤ b && b ≤ 57) || (65 ≤ b && b ≤ 90) || (97 ≤ b && b ≤ 122) ||
  b = 42 || b = 45 || b = 46 || b = 95

def formEncodeByte (b : Nat) : String :=
  if formUnreserved b then String.singleton (Char.ofNat b)
  else if b = 32 then "+"
  else "%" ++ String.singleton (hexDigitChar (b / 16)) ++
    String.singleton (hexDigitChar (b % 16))

def formEncode (s : String) : String :=
  ((s.data.flatMap utf8Bytes).map formEncodeByte).foldl (· ++ ·) ""

/-- `URLSearchParams.toString()`. -/
def uspToString (l : List (String × String)) : String :=
  String.intercalate "&" (l.map (fun p => formEncode p.1 ++ "=" ++ formEncode p.2))

/-- `Object.assign(body || {}, query)`: assigning a string source copies
its index properties (`{0: s[0], 1: s[1], ...}`); `null`/`undefined`
sources are ignored. -/
def assignQuery (target : JMap) : Option QueryArg → JMap
  | none => target
  | some (.map m) => jmerge target m
  | some (.str s) =>
    jmerge target (s.data.enum.map (fun p => (toString p.1, JVal.jstr (String.singleton p.2))))

/-- `!query` — JS falsiness of the `query` argument. -/
def queryFalsy : Option QueryArg → Bool
  | none => true
  | some (.str s) => s = ""
  | some (.map _) => false

/-- `Object.keys(query).length` (for a string, its index keys). -/
def queryKeysLen : QueryArg → Nat
  | .str s => s.length
  | .map m => m.length

/-- `addQuery(url, query, body)` from `lib.ts`: resolves path params
against `Object.assign(body || {}, query)` (a merge that is *not* the
`query` object itself), then — unless `query` is falsy or key-less —
appends `queryToUrlParams(query).toString()` with `?` or `&`.  Returns
`[url, paramMatches]` (the matches are dropped on the early return). -/
def addQuery (url : String) (query : Option QueryArg) (body : Option JMap) :
    String × List String :=
  let t := transformPathParams url (assignQuery (body.getD []) query)
  let url1 := t.1
  let paramMatches := t.2.1
  if queryFalsy query || decide (queryKeysLen (query.getD (.str "")) = 0) then
    (url1, [])
  else
    let usp := queryToUrlParams (query.getD (.str ""))
    if usp.length > 0 then
      (url1 ++ (if strContainsChar '?' url1 then "&" else "?") ++ uspToString usp,
        paramMatches)
    else (url1, paramMatches)

/-! ## `lib.ts`: `parse` — `JSON.parse` with fallback -/

/-- Parsed JSON values.  Numbers keep their source lexeme: `JSON.parse`
produces IEEE-754 doubles, whose arithmetic is outside this model; no
claim depends on numeric value semantics. -/
inductive Json where
  | jnull
  | jbool (b : Bool)
  | jnum (lexeme : String)
  | jstr (s : String)
  | jarr (xs : List Json)
  | jobj (fields : List (String × Json))

def jsonWs (c : Char) : Bool :=
  c = ' ' || c = '\t' || c = '\n' || c = '\r'

def skipWs : List Char → List Char
  | [] => []
  | c :: cs => if jsonWs c then skipWs cs else c :: cs

def isJsonDigit (c : Char) : Bool := '0' ≤ c && c ≤ '9'

def takeDigits : List Char → List Char × List Char
  | [] => ([], [])
  | c :: cs =>
    if isJsonDigit c then
      let r := takeDigits cs
      (c :: r.1, r.2)
    else ([], c :: cs)

/-- JSON number grammar: `-? int frac? exp?` with `int = 0 | [1-9][0-9]*`.
Returns the lexeme and the rest. -/
def lexJsonNumber (cs : List Char) : Option (List Char × List Char) := do
  let (sign, cs) := match cs with
    | '-' :: rest => ([('-' : Char)], rest)
    | _ => ([], cs)
  let (intPart, cs) ← match cs with
    | '0' :: rest => some ([('0' : Char)], rest)
    | c :: rest =>
      if isJsonDigit c && c ≠ '0' then
        let r := takeDigits rest
        some (c :: r.1, r.2)
      else none
    | [] => none
  let (fracPart, cs) ← match cs with
    | '.' :: rest =>
      let r := takeDigits rest
      if r.1.isEmpty then none else some ('.' :: r.1, r.2)
    | _ => some ([], cs)
  let (expPart, cs) ← match cs with
    | c :: rest =>
      if c = 'e' || c = 'E' then
        let (es, rest2) := match rest with
          | '+' :: r2 => ([c, '+'], r2)
          | '-' :: r2 => ([c, '-'], r2)
          | _ => ([c], rest)
        let r := takeDigits rest2
        if r.1.isEmpty then none else some (es ++ r.1, r.2)
      else some ([], c :: rest)
    | [] => some ([], [])
  some (sign ++ intPart ++ fracPart ++ expPart, cs)

def hexVal (c : Char) : Option Nat :=
  if '0' ≤ c && c ≤ '9' then some (c.toNat - 48)
  else if 'a' ≤ c && c ≤ 'f' then some (c.toNat - 87)
  else if 'A' ≤ c && c ≤ 'F' then some (c.toNat - 55)
  else none

/-- JSON string body after the opening quote; `fuel` bounds the number of
characters read.  `\uXXXX` escapes are mapped through `Char.ofNat`; lone
UTF-16 surrogates (legal for `JSON.parse`, not representable as scalar
values) are out of this model's scope. -/
def lexJsonStringGo : Nat → List Char → Option (List Char × List Char)
  | 0, _ => none
  | _ + 1, [] => none
  | _ + 1, '"' :: rest => some ([], rest)
  | fuel + 1, '\\' :: rest => do
    let (c, rest2) ← match rest with
      | '"' :: r => some ('"', r)
      | '\\' :: r => some ('\\', r)
      | '/' :: r => some ('/', r)
      | 'b' :: r => some ('\x08', r)
      | 'f' :: r => some ('\x0c', r)
      | 'n' :: r => some ('\n', r)
      | 'r' :: r => some ('\r', r)
      | 't' :: r => some ('\t', r)
      | 'u' :: h1 :: h2 :: h3 :: h4 :: r => do
        let v1 ← hexVal h1
        let v2 ← hexVal h2
        let v3 ← hexVal h3
        let v4 ← hexVal h4
        some (Char.ofNat (((v1 * 16 + v2) * 16 + v3) * 16 + v4), r)
      | _ => none
    let (s, rest3) ← lexJsonStringGo fuel rest2
    some (c :: s, rest3)
  | fuel + 1, c :: rest =>
    if c.toNat < 32 then none
    else do
      let (s, r) ← lexJsonStringGo fuel rest
      some (c :: s, r)

/-- Each step consumes at least one input character, so the input length
is enough fuel. -/
def lexJsonString (cs : List Char) : Option (List Char × List Char) :=
  lexJsonStringGo (cs.length + 1) cs

/-- `{a: 1, a: 2}` keeps the last value at the first position, as
`JSON.parse` building a JS object does. -/
def jsonObjSet : List (String × Json) → String → Json → List (String × Json)
  | [], k, v => [(k, v)]
  | p :: ps, k, v =>
    if p.1 = k then (k, v) :: ps.filter (fun x => x.1 ≠ k)
    else p :: jsonObjSet ps k v

mutual

/-- Recursive-descent model of `JSON.parse`'s value grammar; `fuel`
bounds the recursion depth (any fuel beyond the input length behaves
identically). -/
def parseJsonVal : Nat → List Char → Option (Json × List Char)
  | 0, _ => none
  | _ + 1, [] => none
  | fuel + 1, c :: cs =>
    if jsonWs c then parseJsonVal fuel (skipWs cs)
    else match c, cs with
    | 'n', 'u' :: 'l' :: 'l' :: rest => some (.jnull, rest)
    | 't', 'r' :: 'u' :: 'e' :: rest => some (.jbool true, rest)
    | 'f', 'a' :: 'l' :: 's' :: 'e' :: rest => some (.jbool false, rest)
    | '"', rest => do
      let (s, rest2) ← lexJsonString rest
      some (.jstr ⟨s⟩, rest2)
    | '[', rest =>
      match skipWs rest with
      | ']' :: rest2 => some (.jarr [], rest2)
      | rest2 => do
        let (xs, rest3) ← parseJsonArrItems fuel rest2
        some (.jarr xs, rest3)
    | '\x7b', rest =>
      match skipWs rest with
      | '\x7d' :: rest2 => some (.jobj [], rest2)
      | rest2 => do
        let (fs, rest3) ← parseJsonObjItems fuel rest2
        some (.jobj (fs.foldl (fun acc p => jsonObjSet acc p.1 p.2) []), rest3)
    | _, _ => do
      let (lex, rest) ← lexJsonNumber (c :: cs)
      some (.jnum ⟨lex⟩, rest)

def parseJsonArrItems : Nat → List Char → Option (List Json × List Char)
  | 0, _ => none
  | fuel + 1, cs => do
    let (v, rest) ← parseJsonVal fuel cs
    match skipWs rest with
    | ',' :: rest2 => do
      let (xs, rest3) ← parseJsonArrItems fuel (skipWs rest2)
      some (v :: xs, rest3)
    | ']' :: rest2 => some ([v], rest2)
    | _ => none

/-- Object members as the raw `key : value` pair list in source order;
the caller folds them into the object with `jsonObjSet`. -/
def parseJsonObjItems : Nat → List Char → Option (List (String × Json) × List Char)
  | 0, _ => none
  | fuel + 1, cs =>
    match skipWs cs with
    | '"' :: rest => do
      let (k, rest2) ← lexJsonString rest
      match skipWs rest2 with
      | ':' :: rest3 => do
        let (v, rest4) ← parseJsonVal fuel (skipWs rest3)
        match skipWs rest4 with
        | ',' :: rest5 => do
          let (fs, rest6) ← parseJsonObjItems fuel rest5
          some ((⟨k⟩, v) :: fs, rest6)
        | '\x7d' :: rest5 => some ([(⟨k⟩, v)], rest5)
        | _ => none
      | _ => none
    | _ => none

end

/-- `JSON.parse(s)`: parse one value surrounded by optional whitespace;
anything else is a `SyntaxError` (modelled as `none`). -/
def jsonParse (s : String) : Option Json :=
  match parseJsonVal (s.length + 1) s.data with
  | some (v, rest) => if (skipWs rest).isEmpty then some v else none
  | none => none

/-- The result of `parse`: either a decoded JSON document or the raw
input text. -/
inductive ParseResult where
  | json (j : Json)
  | raw (s : String)

/-- `parse(data)` from `lib.ts`: `try { return JSON.parse(data) } catch
{ return data }` — the fallback returns the input unchanged and never
throws. -/
def parse (data : String) : ParseResult :=
  match jsonParse data with
  | some j => .json j
  | none => .raw data

/-! ## `core.ts`: `matchCallback`

A `CallbackObject` is `{ func, once, method? }`.  The registered function
is identified by `id` (function objects are distinct heap values); the
loop `for (let i = 0; ...) { if (call.method && call.method !== method)
continue; call.func(...params); if (call.once) callback.splice(i, 1), i--; }`
is embedded as a structural recursion: a skipped entry is kept and the
tail processed, an invoked `once` entry is dropped and the tail processed
(the `i--` after `splice` makes the loop continue exactly at the old
tail). -/

structure CallbackEntry where
  id : Nat
  once : Bool
  method : Option String
  deriving DecidableEq, Repr

/-- `call.method && call.method !== method`: skip when a method filter is
set and differs from the dispatch method (a `null` dispatch method
differs from every set filter). -/
def skipEntry (e : CallbackEntry) (method : Option String) : Bool :=
  match e.method with
  | none => false
  | some f => decide (some f ≠ method)

/-- `matchCallback(callback, params, method)`: returns the invoked entry
ids in invocation order and the list as left after `once`-removal (the
source mutates the array in place; every invoked entry receives the same
`params`). -/
def matchCallback : List CallbackEntry → Option String →
    List Nat × List CallbackEntry
  | [], _ => ([], [])
  | e :: es, m =>
    if skipEntry e m then
      let r := matchCallback es m
      (r.1, e :: r.2)
    else
      let r := matchCallback es m
      if e.once then (e.id :: r.1, r.2) else (e.id :: r.1, e :: r.2)

/-! ## `core.ts`: `runHooks` -/

/-- A hook slot: absent, a single callable, or an ordered list. -/
inductive HookSet (α : Type) where
  | absent
  | single (f : α → Bool)
  | many (fs : List (α → Bool))

/-- The `for (const hook of hooks)` loop of `runHooks`, with `result`
threaded; also records the results of the hooks actually invoked, in
invocation order.  `if (!hook(...)) { result = false; if
(!globalConfig.hooks.runAll) break; }` -/
def hooksLoop {α : Type} (runAll : Bool) (p : α) :
    List (α → Bool) → Bool → Bool × List Bool
  | [], result => (result, [])
  | f :: fs, result =>
    let r := f p
    if !r && !runAll then (false, [r])
    else
      let k := hooksLoop runAll p fs (result && r)
      (k.1, r :: k.2)

/-- Invocation trace of the list case, starting from `result = true`. -/
def runHooksTrace {α : Type} (runAll : Bool) (fs : List (α → Bool)) (p : α) :
    Bool × List Bool :=
  hooksLoop runAll p fs true

/-- `runHooks(hooks, params)`. -/
def runHooks {α : Type} (runAll : Bool) (hooks : HookSet α) (p : α) : Bool :=
  match hooks with
  | .absent => true
  | .single f => f p
  | .many fs => (runHooksTrace runAll fs p).1

/-- Specification-side: the prefix of a boolean list up to and including
its first `false` (what a short-circuiting run invokes). -/
def takeThroughFalse : List Bool → List Bool
  | [] => []
  | b :: bs => if b then b :: takeThroughFalse bs else [b]

/-! ## `core.ts`: the `sendRequest`/`passthrough` pipeline

One execution of `passthrough` is embedded as a pure function from the
descriptor and an oracle for the environment (the aggregate results the
four `runHooks` calls return, the global `responseCode` predicate, and
the transport outcome of `fetch`) to a trace of its observable actions.
Hooks are boolean-returning functions, so the aggregate `runHooks`
results fully determine the control flow; `runHooks` itself is verified
separately.  Callback invocation is recorded as `DispatchEv` values: the
list handed to `matchCallback`, the method argument, the `params`
argument, and the resulting invocations. -/

/-- `["GET", "HEAD", "OPTIONS"].includes(method)` negated. -/
def isBodyAllowed (method : String) : Bool :=
  !(["GET", "HEAD", "OPTIONS"].contains method)

/-- Outcome of `fetch(request.request)`: fulfilled with a status,
headers and a handled body text, or rejected. -/
inductive FetchOutcome where
  | ok (status : Nat) (headers : List (String × String)) (body : String)
  | err

/-- The `Error` values flowing into `FailedParams.error`. -/
inductive JsError where
  | interrupted (hook : String)
  | network
  deriving DecidableEq, Repr

/-- `FailedParams.error`: an `Error` or a numeric HTTP status. -/
inductive FPError where
  | exn (e : JsError)
  | statusCode (n : Nat)
  deriving DecidableEq, Repr

/-- The `RequestReturn` artifact assembled in the `then` branch.  The raw
platform handle, `headersObj` (derived from `headers`) and the `resend`
closure carry no information the claims depend on and are omitted; the
originating descriptor is the pipeline's `RequestState` itself. -/
structure RequestReturn where
  headers : List (String × String)
  data : ParseResult
  status : Nat

/-- The `FailedParams` artifact (its `request` field is the descriptor
itself and is omitted). -/
structure FailedParamsM where
  error : FPError
  intercept : Bool
  hook : Option String
  response : Option RequestReturn

/-- Which callback list a dispatch went to. -/
inductive CbKind where
  | success
  | failed
  | final
  deriving DecidableEq, Repr

/-- The `params` array handed to `matchCallback`. -/
inductive DispatchArgs where
  | failedArgs (fp : FailedParamsM)
  | successArgs (raw : String) (ret : RequestReturn)
  | reqArg

/-- One `matchCallback(entries, params, method)` call. -/
structure DispatchEv where
  kind : CbKind
  method : Option String
  entries : List CallbackEntry
  args : DispatchArgs
  invoked : List Nat

def mkDispatch (k : CbKind) (m : Option String) (es : List CallbackEntry)
    (a : DispatchArgs) : DispatchEv :=
  { kind := k, method := m, entries := es, args := a,
    invoked := (matchCallback es m).1 }

/-- The mutable descriptor state the pipeline reads: `request.url`,
`request.data`, `request.config.query` and the three callback lists. -/
structure RequestState where
  url : String
  data : JMap
  configQuery : Option QueryArg
  cbSuccess : List CallbackEntry
  cbFailed : List CallbackEntry
  cbFinally : List CallbackEntry

/-- Environment oracle: aggregate `runHooks` results per lifecycle key,
the global `responseCode` predicate and the transport outcome. -/
structure PipeCfg where
  hookBefore : Bool
  hookInit : Bool
  hookSuccess : Bool
  hookFailedRes : Bool
  responseCode : Nat → Bool
  fetch : FetchOutcome

/-- Trace of one `passthrough` run: whether `fetch` was reached, the URL
of the built transport request (once built), the `FailedParams` values
handed to `request.config.failed`, and the callback dispatches in
order. -/
structure Trace where
  fetched : Bool
  builtUrl : Option String
  handlerCalls : List FailedParamsM
  dispatches : List DispatchEv

/-- `hookFailed(hook, request, response)`: synthesizes the interrupted
`FailedParams`, invokes the `failed` handler, then dispatches the
`failed` and `finally` callbacks with a `null` method — the `finally`
entries receive `[request]`, not the `FailedParams`. -/
def hookFailedT (hook : String) (req : RequestState)
    (resp : Option RequestReturn) : List FailedParamsM × List DispatchEv :=
  let fp : FailedParamsM :=
    { error := .exn (.interrupted hook), intercept := true,
      hook := some hook, response := resp }
  ([fp],
    [mkDispatch .failed none req.cbFailed (.failedArgs fp),
     mkDispatch .final none req.cbFinally .reqArg])

/-- `handleBadResponse(response, request, resend)`: runs the `failed`
hook set (aggregate result `cfg.hookFailedRes`); a veto routes to
`hookFailed("failed", request, null)`; otherwise `FailedParams` with
`error = status`, `response` populated, dispatched with a `null`
method. -/
def handleBadResponseT (cfg : PipeCfg) (resp : RequestReturn)
    (req : RequestState) : List FailedParamsM × List DispatchEv :=
  if cfg.hookFailedRes = false then hookFailedT "failed" req none
  else
    let fp : FailedParamsM :=
      { error := .statusCode resp.status, intercept := false,
        hook := none, response := some resp }
    ([fp],
      [mkDispatch .failed none req.cbFailed (.failedArgs fp),
       mkDispatch .final none req.cbFinally .reqArg])

/-- One execution of `passthrough` (the debounce wait already elapsed).
Follows `core.ts` lines 58–136: `before` hooks, path-param resolution
(mutating `request.data`), building the transport request via
`addQuery`, `init` hooks, `fetch`, then the `then`/`catch` branches. -/
def passthroughT (cfg : PipeCfg) (req : RequestState) (method : String) :
    Trace :=
  if cfg.hookBefore = false then
    let h := hookFailedT "before" req none
    { fetched := false, builtUrl := none,
      handlerCalls := h.1, dispatches := h.2 }
  else
    let t := transformPathParams req.url req.data
    let url1 := t.1
    let data1 := jdelAll t.2.2 t.2.1
    let req1 : RequestState := { req with data := data1 }
    let dataQuery : Option QueryArg :=
      if isBodyAllowed method then req1.configQuery
      else some (.map req1.data)
    let built := (addQuery url1 dataQuery none).1
    if cfg.hookInit = false then
      let h := hookFailedT "init" req1 none
      { fetched := false, builtUrl := some built,
        handlerCalls := h.1, dispatches := h.2 }
    else
      match cfg.fetch with
      | .ok status headers body =>
        let ret : RequestReturn :=
          { headers := headers, data := parse body, status := status }
        if cfg.responseCode status = false then
          let h := handleBadResponseT cfg ret req1
          { fetched := true, builtUrl := some built,
            handlerCalls := h.1, dispatches := h.2 }
        else if cfg.hookSuccess = false then
          let h := hookFailedT "success" req1 (some ret)
          { fetched := true, builtUrl := some built,
            handlerCalls := h.1, dispatches := h.2 }
        else
          { fetched := true, builtUrl := some built,
            handlerCalls := [],
            dispatches :=
              [mkDispatch .success (some method) req1.cbSuccess
                (.successArgs body ret),
               mkDispatch .final (some method) req1.cbFinally .reqArg] }
      | .err =>
        if cfg.hookFailedRes = false then
          let h := hookFailedT "failed" req1 none
          { fetched := true, builtUrl := some built,
            handlerCalls := h.1, dispatches := h.2 }
        else
          let fp : FailedParamsM :=
            { error := .exn .network, intercept := false,
              hook := none, response := none }
          { fetched := true, builtUrl := some built,
            handlerCalls := [fp],
            dispatches :=
              [mkDispatch .failed (some method) req1.cbFailed
                (.failedArgs fp),
               mkDispatch .final (some method) req1.cbFinally .reqArg] }

/-! ## `core.ts`: the debounce branch of `sendRequest`

`if (request.config.wait) { if (request.wait) clearTimeout(request.wait);
request.wait = setTimeout(() => { passthrough(); request.wait = null; },
request.config.wait); } else passthrough();`

The platform timer queue is modelled explicitly: `timers` holds the live
timers `(id, fire time, captured payload)`, `waitHandle` is the
descriptor's `request.wait` field, and `calls` records the `passthrough`
executions in order with the payload each used. -/

structure DebState (α : Type) where
  nextId : Nat
  timers : List (Nat × Nat × α)
  waitHandle : Option Nat
  calls : List α
  deriving DecidableEq, Repr

def debInit {α : Type} : DebState α :=
  { nextId := 0, timers := [], waitHandle := none, calls := [] }

/-- The platform fires every timer whose fire time has been reached; a
fired debounce callback runs `passthrough()` and clears `request.wait`.
(With at most one live timer — the invariant proved below — list order
is firing order.) -/
def fireDue {α : Type} (now : Nat) (st : DebState α) : DebState α :=
  let due := st.timers.filter (fun t => t.2.1 ≤ now)
  { st with
    timers := st.timers.filter (fun t => !(t.2.1 ≤ now)),
    calls := st.calls ++ due.map (fun t => t.2.2),
    waitHandle :=
      if due.any (fun t => some t.1 = st.waitHandle) then none
      else st.waitHandle }

/-- One `sendRequest` call at time `t` with payload `d`: elapsed timers
fire first; with a truthy `config.wait` the pending timer (if any) is
cancelled and a new trailing-edge timer is scheduled at `t + wait`;
otherwise `passthrough` runs immediately. -/
def sendStep {α : Type} (wait : Nat) (st : DebState α) (t : Nat) (d : α) :
    DebState α :=
  let st := fireDue t st
  if wait ≠ 0 then
    let st := match st.waitHandle with
      | some h => { st with timers := st.timers.filter (fun x => x.1 ≠ h) }
      | none => st
    { st with
      timers := st.timers ++ [(st.nextId, t + wait, d)],
      waitHandle := some st.nextId,
      nextId := st.nextId + 1 }
  else { st with calls := st.calls ++ [d] }

/-- A sequence of `sendRequest` calls `(time, payload)` from the idle
state. -/
def runSends {α : Type} (wait : Nat) (evs : List (Nat × α)) : DebState α :=
  evs.foldl (fun st e => sendStep wait st e.1 e.2) debInit

/-- Let all remaining time pass: every still-pending timer fires. -/
def flushTimers {α : Type} (st : DebState α) : DebState α :=
  { st with
    timers := [],
    calls := st.calls ++ st.timers.map (fun t => t.2.2),
    waitHandle := none }

/-- The sends are issued in order and each within less than `wait`
milliseconds of the previous one. -/
def gapsOk {α : Type} (wait : Nat) : List (Nat × α) → Bool
  | [] => true
  | [_] => true
  | a :: b :: rest => (a.1 ≤ b.1 && b.1 < a.1 + wait) && gapsOk wait (b :: rest)

/-- The debounce invariant: either no timer is live, or exactly one is
and `request.wait` holds its handle. -/
def debPendingInv {α : Type} (st : DebState α) : Prop :=
  st.timers = [] ∨
    ∃ h ft d, st.timers = [(h, ft, d)] ∧ st.waitHandle = some h

/-! ## Lemmas: `matchCallback` -/

theorem matchCallback_invoked (es : List CallbackEntry) (m : Option String) :
    (matchCallback es m).1 =
      (es.filter (fun e => !skipEntry e m)).map (fun e => e.id) := by
  induction es with
  | nil => rfl
  | cons e es ih =>
    by_cases h : skipEntry e m
    · simp [matchCallback, h, List.filter_cons, ih]
    · by_cases ho : e.once <;>
        simp [matchCallback, h, List.filter_cons, ih, ho]

theorem matchCallback_remaining (es : List CallbackEntry) (m : Option String) :
    (matchCallback es m).2 =
      es.filter (fun e => skipEntry e m || !e.once) := by
  induction es with
  | nil => rfl
  | cons e es ih =>
    by_cases h : skipEntry e m
    · simp [matchCallback, h, List.filter_cons, ih]
    · by_cases ho : e.once <;>
        simp [matchCallback, h, List.filter_cons, ih, ho]

theorem skipEntry_none (e : CallbackEntry) :
    skipEntry e none = e.method.isSome := by
  cases h : e.method <;> simp [skipEntry, h]

theorem matchCallback_none_invoked (es : List CallbackEntry) :
    (matchCallback es none).1 =
      (es.filter (fun e => e.method = none)).map (fun e => e.id) := by
  rw [matchCallback_invoked]
  congr 1
  apply List.filter_congr
  intro e _
  cases h : e.method <;> simp [skipEntry_none, h]

/-- Claim C6: `matchCallback` iterates the entry list in registration
order; an entry whose method filter is set and differs from the dispatch
method is skipped and remains in the list; every matching entry is
invoked exactly once; an entry with `once = true` is removed immediately
after its invocation with the iteration index adjusted so the entry
following it is still processed (the invoked entries are exactly the
order-preserving filter of matching entries), and the removed entry is
absent from all subsequent dispatches. -/
theorem claim_C6 (es : List CallbackEntry) (m : Option String)
    (hids : (es.map (fun e => e.id)).Nodup) :
    (matchCallback es m).1 =
      (es.filter (fun e => !skipEntry e m)).map (fun e => e.id)
  ∧ (matchCallback es m).2 =
      es.filter (fun e => skipEntry e m || !e.once)
  ∧ (∀ e ∈ es, skipEntry e m = true →
      e.id ∉ (matchCallback es m).1 ∧ e ∈ (matchCallback es m).2)
  ∧ (∀ e ∈ es, skipEntry e m = false →
      (matchCallback es m).1.count e.id = 1)
  ∧ (∀ e ∈ es, skipEntry e m = false → e.once = true →
      ∀ m', e.id ∉ (matchCallback (matchCallback es m).2 m').1) := by
  have hinj := List.inj_on_of_nodup_map hids
  refine ⟨matchCallback_invoked es m, matchCallback_remaining es m, ?_, ?_, ?_⟩
  · intro e he hskip
    constructor
    · rw [matchCallback_invoked]
      intro hmem
      rcases List.mem_map.1 hmem with ⟨e', he', hid⟩
      have he'es := List.mem_of_mem_filter he'
      have : e' = e := hinj he'es he hid
      subst this
      have := (List.mem_filter.1 he').2
      simp [hskip] at this
    · rw [matchCallback_remaining]
      exact List.mem_filter.2 ⟨he, by simp [hskip]⟩
  · intro e he hskip
    rw [matchCallback_invoked]
    have hnd : ((es.filter (fun e => !skipEntry e m)).map
        (fun e => e.id)).Nodup :=
      hids.sublist ((List.filter_sublist es).map (fun e => e.id))
    have hmem : e.id ∈ (es.filter (fun e => !skipEntry e m)).map
        (fun e => e.id) :=
      List.mem_map_of_mem _ (List.mem_filter.2 ⟨he, by simp [hskip]⟩)
    exact List.count_eq_one_of_mem hnd hmem
  · intro e he hskip honce m' hmem
    rw [matchCallback_invoked] at hmem
    rcases List.mem_map.1 hmem with ⟨e', he', hid⟩
    have he'rem := List.mem_of_mem_filter he'
    rw [matchCallback_remaining] at he'rem
    have he'es := List.mem_of_mem_filter he'rem
    have : e' = e := hinj he'es he hid
    subst this
    have := (List.mem_filter.1 he'rem).2
    simp [hskip, honce] at this

/-- Witness for C6 at a concrete dispatch: ids `[1, 2, 3, 4]`, entry 3
filtered to POST, entries 2 and 4 one-shot, dispatch method GET. -/
theorem claim_C6_witness :
    ([(⟨1, false, none⟩ : CallbackEntry), ⟨2, true, none⟩,
        ⟨3, false, some "POST"⟩, ⟨4, true, some "GET"⟩].map
          (fun e => e.id)).Nodup
  ∧ (matchCallback [⟨1, false, none⟩, ⟨2, true, none⟩,
        ⟨3, false, some "POST"⟩, ⟨4, true, some "GET"⟩] (some "GET")).1 =
      ([(⟨1, false, none⟩ : CallbackEntry), ⟨2, true, none⟩,
        ⟨3, false, some "POST"⟩, ⟨4, true, some "GET"⟩].filter
          (fun e => !skipEntry e (some "GET"))).map (fun e => e.id) :=
  ⟨by decide,
    (claim_C6 [⟨1, false, none⟩, ⟨2, true, none⟩, ⟨3, false, some "POST"⟩,
      ⟨4, true, some "GET"⟩] (some "GET") (by decide)).1⟩

/-! ## Lemmas: `runHooks` -/

theorem hooksLoop_result {α : Type} (runAll : Bool) (p : α)
    (fs : List (α → Bool)) (acc : Bool) :
    (hooksLoop runAll p fs acc).1 =
      (acc && (hooksLoop runAll p fs acc).2.all id) := by
  induction fs generalizing acc with
  | nil => simp [hooksLoop]
  | cons f fs ih =>
    by_cases hr : f p
    · simp [hooksLoop, hr, ih]
    · cases runAll with
      | false => simp [hooksLoop, hr]
      | true =>
        have := ih (acc && f p)
        simp [hooksLoop, hr] at this ⊢
        simpa [hr] using this

theorem hooksLoop_trace_runAll {α : Type} (p : α) (fs : List (α → Bool))
    (acc : Bool) :
    (hooksLoop true p fs acc).2 = fs.map (fun h => h p) := by
  induction fs generalizing acc with
  | nil => rfl
  | cons f fs ih => simp [hooksLoop, ih]

theorem hooksLoop_trace_shortCircuit {α : Type} (p : α)
    (fs : List (α → Bool)) (acc : Bool) :
    (hooksLoop false p fs acc).2 =
      takeThroughFalse (fs.map (fun h => h p)) := by
  induction fs generalizing acc with
  | nil => rfl
  | cons f fs ih =>
    by_cases hr : f p
    · simp [hooksLoop, hr, takeThroughFalse, ih]
    · simp [hooksLoop, hr, takeThroughFalse]

/-- Claim C4: `runHooks` returns `true` when the hook set is absent;
for a single function it returns that function's boolean result; for a
list it invokes the hooks in order with the same parameters and returns
`false` iff some invoked hook returned `false`, stopping at the first
failing hook when the process-wide `runAll` flag is disabled and running
all hooks (still aggregating to `false`) when it is enabled.  The
result is returned as a boolean, never raised (the embedding is a total
function into `Bool`). -/
theorem claim_C4 {α : Type} (runAll : Bool) (p : α) (f : α → Bool)
    (fs : List (α → Bool)) :
    runHooks runAll HookSet.absent p = true
  ∧ runHooks runAll (HookSet.single f) p = f p
  ∧ runHooks runAll (HookSet.many fs) p = (runHooksTrace runAll fs p).1
  ∧ ((runHooksTrace runAll fs p).1 = false ↔
      false ∈ (runHooksTrace runAll fs p).2)
  ∧ (runAll = true →
      (runHooksTrace runAll fs p).2 = fs.map (fun h => h p))
  ∧ (runAll = false →
      (runHooksTrace runAll fs p).2 =
        takeThroughFalse (fs.map (fun h => h p))) := by
  refine ⟨rfl, rfl, rfl, ?_, ?_, ?_⟩
  · rw [runHooksTrace, hooksLoop_result]
    constructor
    · intro h
      simp only [Bool.true_and] at h
      rcases List.all_eq_false.1 h with ⟨b, hb, hbf⟩
      cases b with
      | false => exact hb
      | true => simp at hbf
    · intro hmem
      simp only [Bool.true_and]
      exact List.all_eq_false.2 ⟨false, hmem, by simp⟩
  · intro h; subst h; exact hooksLoop_trace_runAll p fs true
  · intro h; subst h; exact hooksLoop_trace_shortCircuit p fs true

/-- Witness for C4: three hooks on parameter `3`, the second vetoes;
with `runAll` disabled the third hook is never invoked. -/
theorem claim_C4_witness :
    (runHooksTrace false
        [fun n => decide (n > 0), fun n => decide (n > 5), fun _ => true]
        (3 : Nat)).2 =
      takeThroughFalse
        ([fun n => decide (n > 0), fun n => decide (n > 5),
          fun _ : Nat => true].map (fun h => h 3)) :=
  (claim_C4 false (3 : Nat) (fun _ => true)
    [fun n => decide (n > 0), fun n => decide (n > 5), fun _ => true]).2.2.2.2.2
    rfl

/-! ## Claim C8: `parse` -/

/-- Claim C8: for every input string, `parse` never raises (it is a
total function): it returns the JSON-decoded value when the string is
parseable as JSON (`jsonParse` succeeds), and otherwise returns the
original input string unchanged; in particular the input `"not json"`
yields the string `"not json"` itself, while a well-formed document is
decoded. -/
theorem claim_C8 (s : String) :
    (∀ j, jsonParse s = some j → parse s = ParseResult.json j)
  ∧ (jsonParse s = none → parse s = ParseResult.raw s)
  ∧ parse "not json" = ParseResult.raw "not json"
  ∧ parse "[1, \"a\", true]" =
      ParseResult.json
        (Json.jarr [Json.jnum "1", Json.jstr "a", Json.jbool true]) := by
  refine ⟨?_, ?_, rfl, rfl⟩
  · intro j h
    simp [parse, h]
  · intro h
    simp [parse, h]

/-- Witness for C8 at the concrete input `"not json"`: `JSON.parse`
fails on it and `parse` falls back to the raw text. -/
theorem claim_C8_witness :
    jsonParse "not json" = none ∧
      parse "not json" = ParseResult.raw "not json" :=
  ⟨rfl, (claim_C8 "not json").2.1 rfl⟩

/-! ## Lemmas: `jget`/`jdel` and `transformPathParams` -/

theorem jget_cons (p : String × JVal) (ps : JMap) (k : String) :
    jget (p :: ps) k = if p.1 = k then some p.2 else jget ps k := by
  by_cases h : p.1 = k <;> simp [jget, List.find?_cons, h]

theorem jdel_cons (p : String × JVal) (ps : JMap) (k : String) :
    jdel (p :: ps) k = if p.1 = k then jdel ps k else p :: jdel ps k := by
  by_cases h : p.1 = k <;> simp [jdel, List.filter_cons, h]

theorem jget_jdel_ne (m : JMap) {k k' : String} (h : k' ≠ k) :
    jget (jdel m k) k' = jget m k' := by
  induction m with
  | nil => rfl
  | cons p ps ih =>
    rw [jdel_cons]
    by_cases h1 : p.1 = k
    · have h2 : p.1 ≠ k' := fun hh => h (by rw [← hh, h1])
      rw [if_pos h1, jget_cons, if_neg h2, ih]
    · rw [if_neg h1, jget_cons, jget_cons, ih]

/-- During `tppGo`, a key whose value is falsy is never looked at: its
binding survives untouched, it is never recorded as consumed, and every
`:`-segment naming it is emitted unchanged. -/
theorem tppGo_falsy (segs : List String) (q : JMap) (name : String)
    (v : JVal) (h : jget q name = some v) (hf : v.truthy = false) :
    name ∉ (tppGo segs q).2.1
  ∧ jget (tppGo segs q).2.2 name = some v
  ∧ ∀ (i : Nat) (s : String), segs[i]? = some s →
      firstCharIs ':' s = true → replaceFirstColon s = name →
      (tppGo segs q).1[i]? = some s := by
  induction segs generalizing q with
  | nil =>
    refine ⟨by simp [tppGo], by simpa [tppGo] using h, ?_⟩
    intro i s hs
    simp at hs
  | cons c cs ih =>
    cases hq : jget q (replaceFirstColon c) with
    | none =>
      obtain ⟨r1, r2, r3⟩ := ih q h
      refine ⟨by simpa [tppGo, hq] using r1, by simpa [tppGo, hq] using r2, ?_⟩
      intro i s hs hcol hkey
      match i with
      | 0 =>
        simp at hs
        subst hs
        simp [tppGo, hq]
      | i + 1 =>
        simp at hs
        simpa [tppGo, hq] using r3 i s hs hcol hkey
    | some w =>
      by_cases hc : (firstCharIs ':' c && w.truthy) = true
      · have hkeyne : replaceFirstColon c ≠ name := by
          intro he
          rw [he, h] at hq
          injection hq with hw
          rw [hw] at hf
          simp [hf] at hc
        have hq' : jget (jdel q (replaceFirstColon c)) name = some v := by
          rw [jget_jdel_ne q (Ne.symm hkeyne)]; exact h
        obtain ⟨r1, r2, r3⟩ := ih (jdel q (replaceFirstColon c)) hq'
        refine ⟨?_, by simpa [tppGo, hq, hc] using r2, ?_⟩
        · simp only [tppGo, hq, hc, if_true, List.mem_cons, not_or]
          exact ⟨fun he => hkeyne he.symm, r1⟩
        · intro i s hs hcol hkey
          match i with
          | 0 =>
            simp at hs
            subst hs
            exact absurd hkey hkeyne
          | i + 1 =>
            simp at hs
            simpa [tppGo, hq, hc] using r3 i s hs hcol hkey
      · obtain ⟨r1, r2, r3⟩ := ih q h
        refine ⟨by simpa [tppGo, hq, hc] using r1,
          by simpa [tppGo, hq, hc] using r2, ?_⟩
        intro i s hs hcol hkey
        match i with
        | 0 =>
          simp at hs
          subst hs
          simp [tppGo, hq, hc]
        | i + 1 =>
          simp at hs
          simpa [tppGo, hq, hc] using r3 i s hs hcol hkey

/-- Claim C10: `transformPathParams` substitutes a `:name` segment only
when the data map's value for `name` is truthy — if the key is present
with a falsy value, the segment keeps its literal `:name` form (the
segment at the same position of the output is unchanged), the key is not
deleted from the map, and `name` is not recorded in the consumed-keys
list. -/
theorem claim_C10 (url : String) (q : JMap) (name : String) (v : JVal)
    (h : jget q name = some v) (hf : v.truthy = false) :
    name ∉ (transformPathParams url q).2.1
  ∧ jget (transformPathParams url q).2.2 name = some v
  ∧ ∀ (i : Nat) (s : String), (splitOnChar '/' url)[i]? = some s →
      firstCharIs ':' s = true → replaceFirstColon s = name →
      (tppGo (splitOnChar '/' url) q).1[i]? = some s :=
  tppGo_falsy (splitOnChar '/' url) q name v h hf

/-- Witness for C10: `":a/b"` with `a` bound to the empty string (falsy)
resolves to itself, keeps the binding and consumes nothing. -/
theorem claim_C10_witness :
    jget [("a", JVal.jstr "")] "a" = some (JVal.jstr "")
  ∧ (JVal.jstr "").truthy = false
  ∧ "a" ∉ (transformPathParams ":a/b" [("a", JVal.jstr "")]).2.1 :=
  ⟨by decide, by decide,
    (claim_C10 ":a/b" [("a", JVal.jstr "")] "a" (JVal.jstr "")
      (by decide) (by decide)).1⟩

/-! ## Lemmas: the spec-level description of `transformPathParams` -/

theorem specSeg_non_colon {q : JMap} {c : String}
    (hc : firstCharIs ':' c = false) : specSeg q c = c := by
  unfold specSeg
  cases jget q (replaceFirstColon c) <;> simp [hc]

theorem specSeg_jdel {q : JMap} {k c : String}
    (hck : firstCharIs ':' c = true → replaceFirstColon c ≠ k) :
    specSeg (jdel q k) c = specSeg q c := by
  by_cases hc : firstCharIs ':' c = true
  · unfold specSeg
    rw [jget_jdel_ne q (hck hc)]
  · rw [specSeg_non_colon (by simpa using hc),
      specSeg_non_colon (by simpa using hc)]

theorem specSubst_jdel {q : JMap} {k c : String}
    (hck : firstCharIs ':' c = true → replaceFirstColon c ≠ k) :
    specSubst (jdel q k) c = specSubst q c := by
  by_cases hc : firstCharIs ':' c = true
  · unfold specSubst
    rw [jget_jdel_ne q (hck hc)]
  · unfold specSubst
    simp [Bool.not_eq_true] at hc
    rw [hc]
    simp

theorem colonKeys_cons (c : String) (cs : List String) :
    colonKeys (c :: cs) =
      if firstCharIs ':' c = true then replaceFirstColon c :: colonKeys cs
      else colonKeys cs := by
  by_cases h : firstCharIs ':' c = true <;>
    simp [colonKeys, List.filter_cons, h]

theorem mem_colonKeys {c : String} {cs : List String} (hmem : c ∈ cs)
    (hc : firstCharIs ':' c = true) :
    replaceFirstColon c ∈ colonKeys cs :=
  List.mem_map_of_mem _ (List.mem_filter.2 ⟨hmem, hc⟩)

theorem specConsumed_cons (q : JMap) (c : String) (cs : List String) :
    specConsumed q (c :: cs) =
      if specSubst q c then replaceFirstColon c :: specConsumed q cs
      else specConsumed q cs := by
  by_cases h : specSubst q c <;>
    simp [specConsumed, List.filter_cons, h]

theorem specConsumed_jdel {q : JMap} {k : String} {cs : List String}
    (hk : k ∉ colonKeys cs) :
    specConsumed (jdel q k) cs = specConsumed q cs := by
  unfold specConsumed
  congr 1
  apply List.filter_congr
  intro c hc
  exact specSubst_jdel (fun hcol heq => hk (heq ▸ mem_colonKeys hc hcol))

theorem map_specSeg_jdel {q : JMap} {k : String} {cs : List String}
    (hk : k ∉ colonKeys cs) :
    cs.map (specSeg (jdel q k)) = cs.map (specSeg q) := by
  apply List.map_congr_left
  intro c hc
  exact specSeg_jdel (fun hcol heq => hk (heq ▸ mem_colonKeys hc hcol))

/-- As long as no two `:`-segments of the URL name the same key, the
imperatively threaded `tppGo` coincides with the spec-level description:
every segment is judged against the original map, the consumed keys are
the keys of the substituted segments in order, and the final map is the
original minus the consumed keys. -/
theorem tppGo_spec (segs : List String) (q : JMap)
    (hnd : (colonKeys segs).Nodup) :
    tppGo segs q =
      (segs.map (specSeg q), specConsumed q segs,
        jdelAll q (specConsumed q segs)) := by
  induction segs generalizing q with
  | nil => rfl
  | cons c cs ih =>
    rw [colonKeys_cons] at hnd
    cases hq : jget q (replaceFirstColon c) with
    | none =>
      have hnd' : (colonKeys cs).Nodup := by
        by_cases hcol : firstCharIs ':' c = true
        · rw [if_pos hcol] at hnd; exact hnd.of_cons
        · rwa [if_neg hcol] at hnd
      have hsub : specSubst q c = false := by
        simp [specSubst, hq, truthyOpt]
      have hseg : specSeg q c = c := by simp [specSeg, hq]
      simp only [tppGo, hq, List.map_cons, hseg, specConsumed_cons, hsub,
        if_false, Bool.false_eq_true, ih q hnd']
    | some w =>
      by_cases hc : (firstCharIs ':' c && w.truthy) = true
      · have hcol : firstCharIs ':' c = true := by
          have h2 := hc
          simp only [Bool.and_eq_true] at h2
          exact h2.1
        rw [if_pos hcol] at hnd
        have hk : replaceFirstColon c ∉ colonKeys cs :=
          (List.nodup_cons.1 hnd).1
        have hnd' : (colonKeys cs).Nodup := (List.nodup_cons.1 hnd).2
        have hsub : specSubst q c = true := by
          simp [specSubst, hq, truthyOpt, hc]
        have hseg : specSeg q c = w.toStr := by simp [specSeg, hq, hc]
        have ihj := ih (jdel q (replaceFirstColon c)) hnd'
        rw [specConsumed_jdel hk, map_specSeg_jdel hk] at ihj
        simp only [tppGo, hq, hc, if_true, List.map_cons, hseg,
          specConsumed_cons, hsub, ihj]
        rfl
      · have hnd' : (colonKeys cs).Nodup := by
          by_cases hcol : firstCharIs ':' c = true
          · rw [if_pos hcol] at hnd; exact hnd.of_cons
          · rwa [if_neg hcol] at hnd
        have hsub : specSubst q c = false := by
          simpa [specSubst, hq, truthyOpt] using hc
        have hseg : specSeg q c = c := by
          simp only [specSeg, hq]
          rw [if_neg (by simpa using hc)]
        simp only [tppGo, hq, hc, if_false, List.map_cons, hseg,
          specConsumed_cons, hsub, Bool.false_eq_true, ih q hnd']

/-- Counterexample for C3 as stated.  First, a key that is *present* but
falsy is not substituted (`":a"` with `a ↦ ""` stays literal, the key is
kept).  Second, a consumed key *does* appear in the query string that
`addQuery` appends when the key is also in the `query` argument:
`addQuery("/users/:id", {id:"7"}, null)` consumes `id` into the path yet
returns `"/users/7?id=7"` — the substitution inside `addQuery` works on
a merged copy, not on `query` itself. -/
theorem counterexample_C3 :
    transformPathParams ":a" [("a", JVal.jstr "")]
      = (":a", [], [("a", JVal.jstr "")])
  ∧ addQuery "/users/:id" (some (QueryArg.map [("id", JVal.jstr "7")])) none
      = ("/users/7?id=7", ["id"])
  ∧ (splitOnChar '?'
      (addQuery "/users/:id" (some (QueryArg.map [("id", JVal.jstr "7")]))
        none).1).drop 1 = ["id=7"] := by
  refine ⟨by decide, by decide, by decide⟩

/-- Claim C3 (amended): `transformPathParams` splits the URL on `/`; each
segment matching `:name` whose key `name` has a *truthy* value in the
data map is replaced by the string value of `data[name]`, that key is
deleted from the map, and `name` is recorded in the consumed-keys list;
segments without a truthy matching key are returned unmodified with
their leading colon, and no error is raised (total function).  The query
string `addQuery` later appends is built from the `query` argument
alone, so a consumed key not occurring in `query` never appears in it —
but a consumed key present in `query` itself does (see the
counterexample).  Stated for URLs whose `:`-segments name pairwise
distinct keys, so that "consumed exactly once" is well defined. -/
theorem claim_C3 (url : String) (q : JMap)
    (hnd : (colonKeys (splitOnChar '/' url)).Nodup) :
    transformPathParams url q =
      (String.intercalate "/" ((splitOnChar '/' url).map (specSeg q)),
        specConsumed q (splitOnChar '/' url),
        jdelAll q (specConsumed q (splitOnChar '/' url)))
  ∧ ∀ (m : JMap) (k : String), k ∉ m.map Prod.fst →
      k ∉ (queryToUrlParams (QueryArg.map m)).map Prod.fst := by
  constructor
  · unfold transformPathParams
    rw [tppGo_spec _ _ hnd]
  · intro m k hk
    simpa [queryToUrlParams, uspOfMap, List.map_map, Function.comp] using hk

/-- Witness for C3 at `"/users/:id"` with `id ↦ "7"`. -/
theorem claim_C3_witness :
    (colonKeys (splitOnChar '/' "/users/:id")).Nodup
  ∧ transformPathParams "/users/:id" [("id", JVal.jstr "7")] =
      (String.intercalate "/"
          ((splitOnChar '/' "/users/:id").map
            (specSeg [("id", JVal.jstr "7")])),
        specConsumed [("id", JVal.jstr "7")] (splitOnChar '/' "/users/:id"),
        jdelAll [("id", JVal.jstr "7")]
          (specConsumed [("id", JVal.jstr "7")]
            (splitOnChar '/' "/users/:id"))) :=
  ⟨by decide,
    (claim_C3 "/users/:id" [("id", JVal.jstr "7")] (by decide)).1⟩

/-! ## Claims about the `passthrough` pipeline -/

/-- Counterexample for C5 as stated: when a `before` hook vetoes, the
`failed` callbacks receive the `FailedParams`, but the `finally`
callbacks are invoked with the request object, not with the
`FailedParams` (`matchCallback(request.callback.finally, [request],
null)`). -/
theorem counterexample_C5 :
    (passthroughT
        { hookBefore := false, hookInit := true, hookSuccess := true,
          hookFailedRes := true, responseCode := fun _ => true,
          fetch := FetchOutcome.err }
        { url := "/a", data := [], configQuery := none, cbSuccess := [],
          cbFailed := [⟨1, false, none⟩], cbFinally := [⟨2, false, none⟩] }
        "GET").dispatches.map
      (fun d => (d.kind,
        match d.args with
        | DispatchArgs.failedArgs _ => true
        | _ => false))
      = [(CbKind.failed, true), (CbKind.final, false)] := by
  decide

/-- Claim C5 (amended): for every send in which a `before` hook returns
false, no network call is issued (`fetch` is never reached), and the
descriptor's failed handler and the `failed` callbacks are invoked with
`FailedParams` having `intercept = true`, `hook = "before"`,
`response = null`; the `finally` callbacks are dispatched afterwards
with the request object as argument.  Both dispatches use a `null`
method. -/
theorem claim_C5 (cfg : PipeCfg) (req : RequestState) (m : String)
    (h : cfg.hookBefore = false) :
    (passthroughT cfg req m).fetched = false
  ∧ (passthroughT cfg req m).handlerCalls =
      [{ error := FPError.exn (JsError.interrupted "before"),
         intercept := true, hook := some "before", response := none }]
  ∧ (passthroughT cfg req m).dispatches =
      [mkDispatch CbKind.failed none req.cbFailed
        (DispatchArgs.failedArgs
          { error := FPError.exn (JsError.interrupted "before"),
            intercept := true, hook := some "before", response := none }),
       mkDispatch CbKind.final none req.cbFinally DispatchArgs.reqArg] := by
  refine ⟨?_, ?_, ?_⟩ <;> simp [passthroughT, hookFailedT, h]

/-- Witness for C5 at a concrete vetoed send. -/
theorem claim_C5_witness :
    (passthroughT
        { hookBefore := false, hookInit := true, hookSuccess := true,
          hookFailedRes := true, responseCode := fun _ => true,
          fetch := FetchOutcome.ok 200 [] "ok" }
        { url := "/b", data := [], configQuery := none, cbSuccess := [],
          cbFailed := [⟨7, false, none⟩], cbFinally := [⟨8, false, none⟩] }
        "POST").fetched = false
  ∧ (passthroughT
        { hookBefore := false, hookInit := true, hookSuccess := true,
          hookFailedRes := true, responseCode := fun _ => true,
          fetch := FetchOutcome.ok 200 [] "ok" }
        { url := "/b", data := [], configQuery := none, cbSuccess := [],
          cbFailed := [⟨7, false, none⟩], cbFinally := [⟨8, false, none⟩] }
        "POST").handlerCalls =
      [{ error := FPError.exn (JsError.interrupted "before"),
         intercept := true, hook := some "before", response := none }] :=
  ⟨(claim_C5 _ _ "POST" rfl).1, (claim_C5 _ _ "POST" rfl).2.1⟩

/-- Counterexample for C1 as stated: transport completed with status 404,
the response-code predicate rejected it, the `failed` hook vetoed — and
the `FailedParams` handed to the failed handler has `response = null`
(`.isSome = false`), not the assembled `RequestReturn`
(`hookFailed("failed", request, null)` in `handleBadResponse`). -/
theorem counterexample_C1 :
    (passthroughT
        { hookBefore := true, hookInit := true, hookSuccess := true,
          hookFailedRes := false,
          responseCode := fun s => decide (s < 400),
          fetch := FetchOutcome.ok 404 [] "oops" }
        { url := "/a", data := [], configQuery := none, cbSuccess := [],
          cbFailed := [⟨1, false, none⟩], cbFinally := [⟨2, false, none⟩] }
        "GET").handlerCalls.map
      (fun fp => (fp.intercept, fp.hook, fp.response.isSome))
      = [(true, some "failed", false)] := by
  decide

/-- Claim C1 (amended): when the transport completes, the status code
fails the response-code predicate and a `failed` hook vetoes, the
`FailedParams` delivered to the descriptor's failed handler and to the
`failed` callbacks has `intercept = true`, `hook = "failed"` and
`response = null` — the assembled `RequestReturn` is *not* attached; the
`finally` callbacks receive the request.  The network call itself did
happen. -/
theorem claim_C1 (cfg : PipeCfg) (req : RequestState) (m : String)
    (st : Nat) (hd : List (String × String)) (bd : String)
    (h1 : cfg.hookBefore = true) (h2 : cfg.hookInit = true)
    (hf : cfg.fetch = FetchOutcome.ok st hd bd)
    (hrc : cfg.responseCode st = false)
    (hfh : cfg.hookFailedRes = false) :
    (passthroughT cfg req m).fetched = true
  ∧ (passthroughT cfg req m).handlerCalls =
      [{ error := FPError.exn (JsError.interrupted "failed"),
         intercept := true, hook := some "failed", response := none }]
  ∧ (passthroughT cfg req m).dispatches =
      [mkDispatch CbKind.failed none req.cbFailed
        (DispatchArgs.failedArgs
          { error := FPError.exn (JsError.interrupted "failed"),
            intercept := true, hook := some "failed", response := none }),
       mkDispatch CbKind.final none req.cbFinally DispatchArgs.reqArg] := by
  refine ⟨?_, ?_, ?_⟩ <;>
    simp [passthroughT, hookFailedT, handleBadResponseT, h1, h2, hf, hrc, hfh]

/-- Witness for C1 at a concrete bad-status, vetoed send. -/
theorem claim_C1_witness :
    (passthroughT
        { hookBefore := true, hookInit := true, hookSuccess := true,
          hookFailedRes := false,
          responseCode := fun s => decide (s < 400),
          fetch := FetchOutcome.ok 500 [] "boom" }
        { url := "/c", data := [], configQuery := none, cbSuccess := [],
          cbFailed := [⟨3, false, none⟩], cbFinally := [⟨4, false, none⟩] }
        "PUT").handlerCalls =
      [{ error := FPError.exn (JsError.interrupted "failed"),
         intercept := true, hook := some "failed", response := none }] :=
  (claim_C1 _ _ "PUT" 500 [] "boom" rfl rfl rfl rfl rfl).2.1

/-- Counterexample for C7 as stated: on the success path the `finally`
dispatch *is* method-filtered — `matchCallback(request.callback.finally,
[request], method)` receives the request's method, so a `finally` entry
with filter `"POST"` does not fire on a `"GET"` dispatch. -/
theorem counterexample_C7 :
    (passthroughT
        { hookBefore := true, hookInit := true, hookSuccess := true,
          hookFailedRes := true, responseCode := fun _ => true,
          fetch := FetchOutcome.ok 200 [] "ok" }
        { url := "/a", data := [], configQuery := none,
          cbSuccess := [⟨1, false, none⟩], cbFailed := [],
          cbFinally := [⟨2, false, some "POST"⟩] }
        "GET").dispatches.map (fun d => (d.kind, d.method, d.invoked))
      = [(CbKind.success, some "GET", [1]), (CbKind.final, some "GET", [])] := by
  decide

/-- Claim C7 (amended): on the success path (good status, no
success-hook veto) the `success` callbacks are dispatched first and then
the `finally` callbacks — but both dispatches carry the request's
method, so a `finally` entry whose method filter differs from the
dispatch method is skipped (the invoked entries are the method-matching
filter), not "method-unfiltered". -/
theorem claim_C7 (cfg : PipeCfg) (req : RequestState) (m : String)
    (st : Nat) (hd : List (String × String)) (bd : String)
    (h1 : cfg.hookBefore = true) (h2 : cfg.hookInit = true)
    (hf : cfg.fetch = FetchOutcome.ok st hd bd)
    (hrc : cfg.responseCode st = true)
    (hs : cfg.hookSuccess = true) :
    (passthroughT cfg req m).dispatches =
      [mkDispatch CbKind.success (some m) req.cbSuccess
        (DispatchArgs.successArgs bd
          { headers := hd, data := parse bd, status := st }),
       mkDispatch CbKind.final (some m) req.cbFinally DispatchArgs.reqArg]
  ∧ (mkDispatch CbKind.final (some m) req.cbFinally
      DispatchArgs.reqArg).invoked =
      (req.cbFinally.filter (fun e => !skipEntry e (some m))).map
        (fun e => e.id) := by
  constructor
  · simp [passthroughT, h1, h2, hf, hrc, hs]
  · simp [mkDispatch, matchCallback_invoked]

/-- Witness for C7 at a concrete successful send. -/
theorem claim_C7_witness :
    (passthroughT
        { hookBefore := true, hookInit := true, hookSuccess := true,
          hookFailedRes := true, responseCode := fun _ => true,
          fetch := FetchOutcome.ok 200 [("x", "y")] "done" }
        { url := "/d", data := [], configQuery := none,
          cbSuccess := [⟨5, false, none⟩], cbFailed := [],
          cbFinally := [⟨6, false, some "POST"⟩] }
        "GET").dispatches =
      [mkDispatch CbKind.success (some "GET") [⟨5, false, none⟩]
        (DispatchArgs.successArgs "done"
          { headers := [("x", "y")], data := parse "done", status := 200 }),
       mkDispatch CbKind.final (some "GET") [⟨6, false, some "POST"⟩]
        DispatchArgs.reqArg] :=
  (claim_C7 _ _ "GET" 200 [("x", "y")] "done" rfl rfl rfl rfl rfl).1

/-- Claim C9: on every failure-path dispatch — a hook veto routed through
`hookFailed` (before/init/success, or a `failed`-hook veto after a bad
status or a network error) and the non-veto bad-status path of
`handleBadResponse` — `matchCallback` is invoked with a `null` method,
so only entries *without* a method filter are invoked: any `failed` or
`finally` entry carrying a method filter is skipped on those paths. -/
theorem claim_C9 (cfg : PipeCfg) (req : RequestState) (m : String)
    (h : cfg.hookBefore = false ∨ cfg.hookInit = false ∨
      (∃ st hd bd, cfg.fetch = FetchOutcome.ok st hd bd ∧
        cfg.responseCode st = false) ∨
      (∃ st hd bd, cfg.fetch = FetchOutcome.ok st hd bd ∧
        cfg.responseCode st = true ∧ cfg.hookSuccess = false) ∨
      (cfg.fetch = FetchOutcome.err ∧ cfg.hookFailedRes = false)) :
    (passthroughT cfg req m).dispatches.map (fun d => d.method) =
      [none, none]
  ∧ (passthroughT cfg req m).dispatches.map (fun d => d.invoked) =
      (passthroughT cfg req m).dispatches.map
        (fun d => (d.entries.filter (fun e => e.method = none)).map
          (fun e => e.id)) := by
  rcases h with h | h | ⟨st, hd, bd, hf, hrc⟩ | ⟨st, hd, bd, hf, hrc, hs⟩ |
    ⟨hf, hfr⟩
  · constructor <;>
      simp [passthroughT, hookFailedT, mkDispatch, h,
        matchCallback_none_invoked]
  · by_cases hb : cfg.hookBefore = false
    · constructor <;>
        simp [passthroughT, hookFailedT, mkDispatch, hb,
          matchCallback_none_invoked]
    · rw [Bool.not_eq_false] at hb
      constructor <;>
        simp [passthroughT, hookFailedT, mkDispatch, hb, h,
          matchCallback_none_invoked]
  · by_cases hb : cfg.hookBefore = false
    · constructor <;>
        simp [passthroughT, hookFailedT, mkDispatch, hb,
          matchCallback_none_invoked]
    · rw [Bool.not_eq_false] at hb
      by_cases hi : cfg.hookInit = false
      · constructor <;>
          simp [passthroughT, hookFailedT, mkDispatch, hb, hi,
            matchCallback_none_invoked]
      · rw [Bool.not_eq_false] at hi
        by_cases hfr : cfg.hookFailedRes = false
        · constructor <;>
            simp [passthroughT, hookFailedT, handleBadResponseT, mkDispatch,
              hb, hi, hf, hrc, hfr, matchCallback_none_invoked]
        · rw [Bool.not_eq_false] at hfr
          constructor <;>
            simp [passthroughT, hookFailedT, handleBadResponseT, mkDispatch,
              hb, hi, hf, hrc, hfr, matchCallback_none_invoked]
  · by_cases hb : cfg.hookBefore = false
    · constructor <;>
        simp [passthroughT, hookFailedT, mkDispatch, hb,
          matchCallback_none_invoked]
    · rw [Bool.not_eq_false] at hb
      by_cases hi : cfg.hookInit = false
      · constructor <;>
          simp [passthroughT, hookFailedT, mkDispatch, hb, hi,
            matchCallback_none_invoked]
      · rw [Bool.not_eq_false] at hi
        constructor <;>
          simp [passthroughT, hookFailedT, mkDispatch, hb, hi, hf, hrc, hs,
            matchCallback_none_invoked]
  · by_cases hb : cfg.hookBefore = false
    · constructor <;>
        simp [passthroughT, hookFailedT, mkDispatch, hb,
          matchCallback_none_invoked]
    · rw [Bool.not_eq_false] at hb
      by_cases hi : cfg.hookInit = false
      · constructor <;>
          simp [passthroughT, hookFailedT, mkDispatch, hb, hi,
            matchCallback_none_invoked]
      · rw [Bool.not_eq_false] at hi
        constructor <;>
          simp [passthroughT, hookFailedT, mkDispatch, hb, hi, hf, hfr,
            matchCallback_none_invoked]

/-- Witness for C9 at a concrete non-veto bad-status send with a
method-filtered `finally` entry: both failure dispatches use a `null`
method. -/
theorem claim_C9_witness :
    (passthroughT
        { hookBefore := true, hookInit := true, hookSuccess := true,
          hookFailedRes := true,
          responseCode := fun s => decide (s < 400),
          fetch := FetchOutcome.ok 404 [] "gone" }
        { url := "/e", data := [], configQuery := none, cbSuccess := [],
          cbFailed := [⟨1, false, some "DELETE"⟩],
          cbFinally := [⟨2, false, some "DELETE"⟩] }
        "DELETE").dispatches.map (fun d => d.method) = [none, none] :=
  (claim_C9 _ _ "DELETE"
    (Or.inr (Or.inr (Or.inl ⟨404, [], "gone", rfl, rfl⟩)))).1

/-! ## Lemmas: the debounce state machine -/

theorem fireDue_inv {α : Type} (now : Nat) (st : DebState α)
    (hst : debPendingInv st) : debPendingInv (fireDue now st) := by
  rcases hst with h | ⟨hh, ft, d, ht, hw⟩
  · left; simp [fireDue, h]
  · by_cases hdue : ft ≤ now
    · left; simp [fireDue, ht, hdue]
    · right
      exact ⟨hh, ft, d, by simp [fireDue, ht, hdue],
        by simp [fireDue, ht, hdue, hw]⟩

theorem sendStep_inv {α : Type} (wait : Nat) (st : DebState α) (t : Nat)
    (d : α) (hst : debPendingInv st) :
    debPendingInv (sendStep wait st t d) := by
  unfold sendStep
  by_cases hw : wait ≠ 0
  · rw [if_pos hw]
    rcases fireDue_inv t st hst with h | ⟨hh, ft, dd, ht, hwh⟩
    · cases hwh2 : (fireDue t st).waitHandle with
      | none =>
        right
        refine ⟨(fireDue t st).nextId, t + wait, d, ?_, ?_⟩ <;> simp [h]
      | some x =>
        right
        refine ⟨(fireDue t st).nextId, t + wait, d, ?_, ?_⟩ <;> simp [h]
    · rw [hwh]
      right
      refine ⟨(fireDue t st).nextId, t + wait, d, ?_, ?_⟩ <;> simp [ht]
  · rw [if_neg hw]
    rcases fireDue_inv t st hst with h | ⟨hh, ft, dd, ht, hwh⟩
    · left; simpa using h
    · right; exact ⟨hh, ft, dd, by simpa using ht, by simpa using hwh⟩

theorem runSends_inv {α : Type} (wait : Nat) (evs : List (Nat × α)) :
    debPendingInv (runSends wait evs) := by
  unfold runSends
  have h : ∀ (l : List (Nat × α)) (st : DebState α), debPendingInv st →
      debPendingInv
        (l.foldl (fun st e => sendStep wait st e.1 e.2) st) := by
    intro l
    induction l with
    | nil => intro st hst; exact hst
    | cons e es ih =>
      intro st hst
      exact ih _ (sendStep_inv wait st e.1 e.2 hst)
  exact h evs debInit (Or.inl rfl)

/-- Trailing-edge run: once one timer is armed for the latest send, every
further send inside the debounce window fires nothing, cancels the
pending timer and re-arms for itself. -/
theorem sendChainAux {α : Type} (wait : Nat) (hw : wait ≠ 0) :
    ∀ (evs : List (Nat × α)) (t : Nat) (d : α) (n : Nat),
      gapsOk wait ((t, d) :: evs) = true →
      List.foldl (fun st e => sendStep wait st e.1 e.2)
          { nextId := n + 1, timers := [(n, t + wait, d)],
            waitHandle := some n, calls := [] } evs =
        { nextId := n + 1 + evs.length,
          timers := [(n + evs.length,
            (List.getLastD evs (t, d)).1 + wait,
            (List.getLastD evs (t, d)).2)],
          waitHandle := some (n + evs.length), calls := [] } := by
  intro evs
  induction evs with
  | nil => intro t d n _; simp [List.getLastD]
  | cons e es ih =>
    intro t d n hg
    have hg' : ((t ≤ e.1 ∧ e.1 < t + wait) ∧
        gapsOk wait (e :: es) = true) := by
      cases e
      simpa [gapsOk, Bool.and_eq_true, decide_eq_true_eq] using hg
    obtain ⟨⟨hle, hlt⟩, hg2⟩ := hg'
    rw [List.foldl_cons]
    have hstep : sendStep wait
        { nextId := n + 1, timers := [(n, t + wait, d)],
          waitHandle := some n, calls := [] } e.1 e.2 =
        { nextId := n + 1 + 1, timers := [(n + 1, e.1 + wait, e.2)],
          waitHandle := some (n + 1), calls := [] } := by
      have hnd : ¬ (t + wait ≤ e.1) := by omega
      unfold sendStep fireDue
      simp [hnd, hw]
    rw [hstep]
    have hg2' : gapsOk wait ((e.1, e.2) :: es) = true := by
      cases e; exact hg2
    have := ih e.1 e.2 (n + 1) hg2'
    have e1 : n + 1 + 1 + es.length = n + 1 + (es.length + 1) := by omega
    have e2 : n + 1 + es.length = n + (es.length + 1) := by omega
    rw [this, List.getLastD_cons]
    simp only [Prod.mk.eta, List.length_cons]
    rw [e1, e2]

/-- `config.wait` falsy: every send calls `passthrough` immediately and
never touches the timer queue. -/
theorem sendZeroAux {α : Type} :
    ∀ (evs : List (Nat × α)) (n : Nat) (wh : Option Nat) (acc : List α),
      List.foldl (fun st e => sendStep 0 st e.1 e.2)
          { nextId := n, timers := [], waitHandle := wh, calls := acc }
          evs =
        { nextId := n, timers := [], waitHandle := wh,
          calls := acc ++ evs.map Prod.snd } := by
  intro evs
  induction evs with
  | nil => intro n wh acc; simp
  | cons e es ih =>
    intro n wh acc
    rw [List.foldl_cons]
    have hstep : sendStep 0
        { nextId := n, timers := [], waitHandle := wh, calls := acc }
          e.1 e.2 =
        { nextId := n, timers := [], waitHandle := wh,
          calls := acc ++ [e.2] } := by
      unfold sendStep fireDue
      simp
    rw [hstep, ih]
    simp

/-- Claim C2: with a positive `config.wait`, every `sendRequest` call
cancels the previously armed debounce timer before arming a new one, so
at most one pending scheduled execution exists per descriptor at any
point; N sends issued within less than `wait` milliseconds of each other
produce exactly one `passthrough` execution, carrying the payload of
the last of the N calls; with `wait` zero (falsy/unset) every send
executes immediately and no timer is ever armed. -/
theorem claim_C2 {α : Type} (wait : Nat) (evs : List (Nat × α))
    (e : Nat × α) :
    (runSends wait evs).timers.length ≤ 1
  ∧ (wait ≠ 0 → gapsOk wait (e :: evs) = true →
      (flushTimers (runSends wait (e :: evs))).calls =
        [(List.getLastD evs e).2]
      ∧ (runSends wait (e :: evs)).calls = [])
  ∧ (wait = 0 → (runSends wait evs).timers = []
      ∧ (runSends wait evs).calls = evs.map Prod.snd) := by
  refine ⟨?_, ?_, ?_⟩
  · rcases runSends_inv wait evs with h | ⟨hh, ft, d, ht, _⟩
    · simp [h]
    · simp [ht]
  · intro hw hg
    have h0 : sendStep wait debInit e.1 e.2 =
        { nextId := 0 + 1, timers := [(0, e.1 + wait, e.2)],
          waitHandle := some 0, calls := [] } := by
      unfold sendStep fireDue debInit
      simp [hw]
    have hg' : gapsOk wait ((e.1, e.2) :: evs) = true := by
      cases e; exact hg
    have hrun : runSends wait (e :: evs) =
        { nextId := 0 + 1 + evs.length,
          timers := [(0 + evs.length,
            (List.getLastD evs (e.1, e.2)).1 + wait,
            (List.getLastD evs (e.1, e.2)).2)],
          waitHandle := some (0 + evs.length), calls := [] } := by
      unfold runSends
      rw [List.foldl_cons, h0, sendChainAux wait hw evs e.1 e.2 0 hg']
    have heta : (e.1, e.2) = e := rfl
    rw [hrun]
    constructor
    · simp [flushTimers, heta]
    · rfl
  · intro hw
    subst hw
    have := sendZeroAux evs 0 none []
    unfold runSends
    rw [show (debInit : DebState α) =
      { nextId := 0, timers := [], waitHandle := none, calls := [] }
      from rfl, this]
    simp

/-- Witness for C2: three sends at 0 ms, 10 ms, 20 ms with payloads
`1, 2, 3` under `wait = 50`: exactly one execution, with payload `3`. -/
theorem claim_C2_witness :
    gapsOk 50 [((0 : Nat), (1 : Nat)), (10, 2), (20, 3)] = true
  ∧ (flushTimers (runSends 50 [((0 : Nat), (1 : Nat)), (10, 2), (20, 3)])).calls
      = [3] :=
  ⟨by decide,
    (((claim_C2 50 [((10 : Nat), (2 : Nat)), (20, 3)] (0, 1)).2.1
      (by decide) (by decide)).1).trans (by decide)⟩

end Fastjs
